import Mathlib

/-!
Verification of the troubleshooting-extension core: the graph data model,
the JSON persistence layer (a model of the host JSON.stringify/JSON.parse
pair on the fragment this extension produces: objects, arrays, strings and
null), the store (load/save), the editor (submit) and the traversal engine,
each translated from src/src/index.tsx.
-/

/-- JavaScript truthiness of a `string | null | undefined` value: `none`
(null/undefined) and the empty string are falsy, every other string is
truthy.  Used by the source at `if (storedData)`, `answer.nextId ?`,
and `answer.icon ?`. -/
def jsTruthy : Option String → Bool
  | none => false
  | some s => !s.data.isEmpty

/-- The JSON value fragment produced and consumed by this extension:
objects, arrays, strings, and null.  Serialized graphs contain no numeric
or boolean literals, so the model omits them.  Keys and string payloads
are lists of characters. -/
inductive JVal where
  | jnull : JVal
  | jstr : List Char → JVal
  | jarr : List JVal → JVal
  | jobj : List (List Char × JVal) → JVal

/-- JSON whitespace characters (space, newline, tab, carriage return). -/
def isWsChar (c : Char) : Bool := c = ' ' || c = '\n' || c = '\t' || c = '\r'

/-- Drop leading JSON whitespace. -/
def skipWs : List Char → List Char
  | [] => []
  | c :: cs => if isWsChar c then skipWs cs else c :: cs

/-- `n` space characters, the indentation unit of `JSON.stringify(v, null, 2)`. -/
def spaces (n : Nat) : List Char := List.replicate n ' '

/-- Lower-case hexadecimal digit for `n < 16`, as emitted in `\u00XX` escapes. -/
def hexDigitChar (n : Nat) : Char := if n < 10 then Char.ofNat (48 + n) else Char.ofNat (87 + n)

/-- The escape of one character inside a JSON string literal, following
`JSON.stringify`: quote and backslash get a backslash escape, the named
control characters get their short escapes, remaining control characters
get a `\u00XX` escape, and everything else is emitted verbatim. -/
def escChar (c : Char) : List Char :=
  if c = '"' then ['\\', '"']
  else if c = '\\' then ['\\', '\\']
  else if c = '\n' then ['\\', 'n']
  else if c = '\r' then ['\\', 'r']
  else if c = '\t' then ['\\', 't']
  else if c = Char.ofNat 8 then ['\\', 'b']
  else if c = Char.ofNat 12 then ['\\', 'f']
  else if c.toNat < 32 then ['\\', 'u', '0', '0', hexDigitChar (c.toNat / 16), hexDigitChar (c.toNat % 16)]
  else [c]

/-- Escape every character of a string body. -/
def escStr : List Char → List Char
  | [] => []
  | c :: cs => escChar c ++ escStr cs

/-- A JSON string literal: quoted, escaped body. -/
def printStr (s : List Char) : List Char := '"' :: escStr s ++ ['"']

mutual

/-- Pretty-printing of a JSON value with two-space indentation, following
`JSON.stringify(v, null, 2)` (used by the editor at
`JSON.stringify(currentData, null, 2)`); `g` is the current indentation. -/
def printJ (g : Nat) : JVal → List Char
  | .jnull => ['n', 'u', 'l', 'l']
  | .jstr s => printStr s
  | .jarr [] => ['[', ']']
  | .jarr (x :: xs) => '[' :: '\n' :: (spaces (g + 2) ++ printJ (g + 2) x ++ printArrTail g xs)
  | .jobj [] => ['{', '}']
  | .jobj (f :: fs) => '{' :: '\n' :: (printFieldJ g f ++ printObjTail g fs)

/-- The elements of a nonempty pretty-printed array after the first,
followed by the closing bracket on its own line. -/
def printArrTail (g : Nat) : List JVal → List Char
  | [] => '\n' :: (spaces g ++ [']'])
  | y :: ys => ',' :: '\n' :: (spaces (g + 2) ++ printJ (g + 2) y ++ printArrTail g ys)

/-- One pretty-printed object field: indentation, quoted key, colon, space, value. -/
def printFieldJ (g : Nat) : List Char × JVal → List Char
  | (k, v) => spaces (g + 2) ++ printStr k ++ ':' :: ' ' :: printJ (g + 2) v

/-- The fields of a nonempty pretty-printed object after the first,
followed by the closing brace on its own line. -/
def printObjTail (g : Nat) : List (List Char × JVal) → List Char
  | [] => '\n' :: (spaces g ++ ['}'])
  | f :: fs => ',' :: '\n' :: (printFieldJ g f ++ printObjTail g fs)

end

mutual

/-- Compact printing of a JSON value, following one-argument
`JSON.stringify(v)` (used by the store at
`JSON.stringify(newData)` in `handleSave`). -/
def printC : JVal → List Char
  | .jnull => ['n', 'u', 'l', 'l']
  | .jstr s => printStr s
  | .jarr [] => ['[', ']']
  | .jarr (x :: xs) => '[' :: (printC x ++ printCArrTail xs)
  | .jobj [] => ['{', '}']
  | .jobj (f :: fs) => '{' :: (printCField f ++ printCObjTail fs)

/-- Compact array elements after the first. -/
def printCArrTail : List JVal → List Char
  | [] => [']']
  | y :: ys => ',' :: (printC y ++ printCArrTail ys)

/-- One compact object field. -/
def printCField : List Char × JVal → List Char
  | (k, v) => printStr k ++ ':' :: printC v

/-- Compact object fields after the first. -/
def printCObjTail : List (List Char × JVal) → List Char
  | [] => ['}']
  | f :: fs => ',' :: (printCField f ++ printCObjTail fs)

end

/-- Value of one character inside a short escape sequence (`JSON.parse`). -/
def unescChar (e : Char) : Option Char :=
  if e = '"' then some '"'
  else if e = '\\' then some '\\'
  else if e = '/' then some '/'
  else if e = 'b' then some (Char.ofNat 8)
  else if e = 'f' then some (Char.ofNat 12)
  else if e = 'n' then some '\n'
  else if e = 'r' then some '\r'
  else if e = 't' then some '\t'
  else none

/-- Value of a hexadecimal digit character, or `none`. -/
def hexVal (c : Char) : Option Nat :=
  if 48 ≤ c.toNat ∧ c.toNat ≤ 57 then some (c.toNat - 48)
  else if 97 ≤ c.toNat ∧ c.toNat ≤ 102 then some (c.toNat - 87)
  else if 65 ≤ c.toNat ∧ c.toNat ≤ 70 then some (c.toNat - 55)
  else none

mutual

/-- Parse the body of a JSON string literal after its opening quote,
returning the decoded body and the input after the closing quote. -/
def parseStrBody : List Char → Option (List Char × List Char)
  | [] => none
  | c :: rest =>
    if c = '"' then some ([], rest)
    else if c = '\\' then parseEsc rest
    else
      match parseStrBody rest with
      | some (s, r) => some (c :: s, r)
      | none => none

/-- Parse what follows a backslash inside a string literal. -/
def parseEsc : List Char → Option (List Char × List Char)
  | [] => none
  | e :: rest2 =>
    if e = 'u' then parseHexEsc rest2
    else
      match unescChar e with
      | some ec =>
        match parseStrBody rest2 with
        | some (s, r) => some (ec :: s, r)
        | none => none
      | none => none

/-- Parse the four hexadecimal digits of a `\uXXXX` escape. -/
def parseHexEsc : List Char → Option (List Char × List Char)
  | h1 :: h2 :: h3 :: h4 :: rest3 =>
    match hexVal h1, hexVal h2, hexVal h3, hexVal h4 with
    | some a, some b, some c2, some d =>
      match parseStrBody rest3 with
      | some (s, r) => some (Char.ofNat (((a * 16 + b) * 16 + c2) * 16 + d) :: s, r)
      | none => none
    | _, _, _, _ => none
  | _ => none

end

mutual

/-- Recursive-descent parser for the JSON fragment, a model of `JSON.parse`
restricted to the values this extension serializes (no numeric or boolean
literals).  `fuel` bounds the recursion depth; the top level supplies
`input.length + 1`, which the completeness proof shows is always enough. -/
def parseVal : Nat → List Char → Option (JVal × List Char)
  | 0, _ => none
  | fuel + 1, input =>
    match skipWs input with
    | [] => none
    | c :: rest =>
      if c = 'n' then
        match rest with
        | 'u' :: 'l' :: 'l' :: r => some (.jnull, r)
        | _ => none
      else if c = '"' then
        match parseStrBody rest with
        | some (s, r) => some (.jstr s, r)
        | none => none
      else if c = '[' then
        let r0 := skipWs rest
        if r0.head? = some ']' then some (.jarr [], r0.tail)
        else
          match parseVal fuel r0 with
          | some (x, r1) =>
            match parseArrTail fuel r1 with
            | some (xs, r2) => some (.jarr (x :: xs), r2)
            | none => none
          | none => none
      else if c = '{' then
        let r0 := skipWs rest
        if r0.head? = some '}' then some (.jobj [], r0.tail)
        else
          match parseFieldJ fuel r0 with
          | some (f, r1) =>
            match parseObjTail fuel r1 with
            | some (fs, r2) => some (.jobj (f :: fs), r2)
            | none => none
          | none => none
      else none

/-- After one array element: either the closing bracket, or a comma and
further elements. -/
def parseArrTail : Nat → List Char → Option (List JVal × List Char)
  | 0, _ => none
  | fuel + 1, input =>
    match skipWs input with
    | [] => none
    | c :: r =>
      if c = ']' then some ([], r)
      else if c = ',' then
        match parseVal fuel r with
        | some (x, r1) =>
          match parseArrTail fuel r1 with
          | some (xs, r2) => some (x :: xs, r2)
          | none => none
        | none => none
      else none

/-- One object field: quoted key, colon, value. -/
def parseFieldJ : Nat → List Char → Option ((List Char × JVal) × List Char)
  | 0, _ => none
  | fuel + 1, input =>
    match skipWs input with
    | [] => none
    | c :: r =>
      if c = '"' then
        match parseStrBody r with
        | some (k, r1) =>
          match skipWs r1 with
          | c2 :: r2 =>
            if c2 = ':' then
              match parseVal fuel r2 with
              | some (v, r3) => some ((k, v), r3)
              | none => none
            else none
          | [] => none
        | none => none
      else none

/-- After one object field: either the closing brace, or a comma and
further fields. -/
def parseObjTail : Nat → List Char → Option (List (List Char × JVal) × List Char)
  | 0, _ => none
  | fuel + 1, input =>
    match skipWs input with
    | [] => none
    | c :: r =>
      if c = '}' then some ([], r)
      else if c = ',' then
        match parseFieldJ fuel r with
        | some (f, r1) =>
          match parseObjTail fuel r1 with
          | some (fs, r2) => some (f :: fs, r2)
          | none => none
        | none => none
      else none

end

/-- Full parse of a string as one JSON value, allowing trailing whitespace
only, as `JSON.parse` does. -/
def parseJson (s : String) : Option JVal :=
  match parseVal (s.data.length + 1) s.data with
  | some (v, rest) => if skipWs rest = [] then some v else none
  | none => none

/-- One selectable option on a step, from the `answers` element type of the
source (lines 8-12): display text, the id of the next step or null, and an
optional icon name (`keyof typeof Icon`, modelled as a string). -/
structure Answer where
  text : String
  nextId : Option String
  icon : Option String
deriving DecidableEq

/-- One question node, from `TroubleshootingStepData` in the source
(lines 5-13). -/
structure TroubleshootingStepData where
  id : String
  question : String
  answers : List Answer
deriving DecidableEq

/-- `TroubleshootingData = Record<string, TroubleshootingStepData>`: a
JavaScript record, modelled as an association list with the record's key
insertion order (which `JSON.stringify` follows). -/
abbrev TroubleshootingData := List (String × TroubleshootingStepData)

/-- The built-in default dataset `initialTroubleshootingData`
(source lines 21-63), transcribed verbatim. -/
def initialTroubleshootingData : TroubleshootingData :=
  [ ("start",
     { id := "start",
       question := "What is the problem with the process?",
       answers :=
         [ { text := "It's not starting", nextId := some "not-starting", icon := some "Play" },
           { text := "It's running slow", nextId := some "running-slow", icon := some "Gauge" },
           { text := "It crashed", nextId := some "crashed", icon := some "XMarkCircle" } ] }),
    ("not-starting",
     { id := "not-starting",
       question := "Have you checked the logs for startup errors?",
       answers :=
         [ { text := "Yes, there are errors", nextId := some "log-errors", icon := some "Document" },
           { text := "No, where are the logs?", nextId := some "find-logs", icon := some "QuestionMark" },
           { text := "There are no logs at all", nextId := some "no-logs", icon := some "ExclamationMark" } ] }),
    ("running-slow",
     { id := "running-slow",
       question := "Is the CPU usage high?",
       answers :=
         [ { text := "Yes, CPU is at 100%", nextId := some "high-cpu", icon := some "ComputerChip" },
           { text := "No, CPU is normal", nextId := some "normal-cpu", icon := some "Leaf" } ] }),
    ("crashed",
     { id := "crashed",
       question := "Was there a crash report generated?",
       answers :=
         [ { text := "Yes, I have the report", nextId := some "submit-report", icon := some "Upload" },
           { text := "No, it just disappeared", nextId := some "check-system-logs", icon := some "Terminal" } ] }),
    ("log-errors",
     { id := "log-errors",
       question := "Common errors include 'Permission Denied' or 'Port in Use'.",
       answers :=
         [ { text := "Solution: Check file permissions or kill the process on that port.",
             nextId := none, icon := some "Wrench" } ] }),
    ("find-logs",
     { id := "find-logs",
       question := "Logs are usually in /var/log/ or the application's own directory.",
       answers :=
         [ { text := "Okay, I'll check there.", nextId := none, icon := some "Check" } ] }),
    ("no-logs",
     { id := "no-logs",
       question := "This might indicate a problem with file permissions for the log directory.",
       answers :=
         [ { text := "Solution: Verify the process has write access to its log location.",
             nextId := none, icon := some "Wrench" } ] }),
    ("high-cpu",
     { id := "high-cpu",
       question := "This could be an infinite loop or heavy processing.",
       answers :=
         [ { text := "Solution: Use a profiler to inspect the process.",
             nextId := none, icon := some "Wrench" } ] }),
    ("normal-cpu",
     { id := "normal-cpu",
       question := "The bottleneck might be I/O (disk or network).",
       answers :=
         [ { text := "Solution: Check disk activity and network requests.",
             nextId := none, icon := some "Wrench" } ] }),
    ("submit-report",
     { id := "submit-report",
       question := "Please submit the crash report to the development team.",
       answers :=
         [ { text := "Done!", nextId := none, icon := some "Check" } ] }),
    ("check-system-logs",
     { id := "check-system-logs",
       question := "Check the main system logs for any related error messages.",
       answers :=
         [ { text := "Okay, I'll check system logs.", nextId := none, icon := some "Check" } ] }) ]

/-- JSON encoding of one answer, with the field order of the declared type;
an absent `icon` is omitted, exactly as `JSON.stringify` omits `undefined`
properties, and a null `nextId` is serialized as JSON null. -/
def answerToJson (a : Answer) : JVal :=
  .jobj (("text".data, .jstr a.text.data) ::
         ("nextId".data, match a.nextId with | some n => .jstr n.data | none => .jnull) ::
         (match a.icon with | some ic => [("icon".data, .jstr ic.data)] | none => []))

/-- JSON encoding of one step, with the field order of the declared type. -/
def stepToJson (st : TroubleshootingStepData) : JVal :=
  .jobj [ ("id".data, .jstr st.id.data),
          ("question".data, .jstr st.question.data),
          ("answers".data, .jarr (st.answers.map answerToJson)) ]

/-- JSON encoding of the whole graph record, keys in insertion order. -/
def graphToJson (g : TroubleshootingData) : JVal :=
  .jobj (g.map (fun p => (p.1.data, stepToJson p.2)))

/-- First field of a JSON object with the given name (JavaScript records
have unique keys). -/
def lookupField : List (List Char × JVal) → List Char → Option JVal
  | [], _ => none
  | f :: fs, name => if f.1 = name then some f.2 else lookupField fs name

/-- Reading of a JSON value as one answer, following the declared
`answers` element type of the source (lines 8-12): `text` a string,
`nextId` a string or null, `icon` an optional string.  In the source this
reading is the unchecked cast at `JSON.parse(...) as TroubleshootingData`;
this function makes the structural interpretation explicit. -/
def jsonToAnswer : JVal → Option Answer
  | .jobj fs =>
    match lookupField fs "text".data with
    | some (.jstr t) =>
      match lookupField fs "nextId".data with
      | some .jnull =>
        match lookupField fs "icon".data with
        | none => some { text := String.mk t, nextId := none, icon := none }
        | some (.jstr ic) => some { text := String.mk t, nextId := none, icon := some (String.mk ic) }
        | some _ => none
      | some (.jstr n) =>
        match lookupField fs "icon".data with
        | none => some { text := String.mk t, nextId := some (String.mk n), icon := none }
        | some (.jstr ic) => some { text := String.mk t, nextId := some (String.mk n), icon := some (String.mk ic) }
        | some _ => none
      | _ => none
    | _ => none
  | _ => none

/-- Reading of a JSON array element list as a list of answers. -/
def decodeAnswers : List JVal → Option (List Answer)
  | [] => some []
  | j :: l =>
    match jsonToAnswer j, decodeAnswers l with
    | some a, some l2 => some (a :: l2)
    | _, _ => none

/-- Reading of a JSON value as one step, following the declared
`TroubleshootingStepData` type of the source (lines 5-13). -/
def jsonToStep : JVal → Option TroubleshootingStepData
  | .jobj fs =>
    match lookupField fs "id".data with
    | some (.jstr i) =>
      match lookupField fs "question".data with
      | some (.jstr q) =>
        match lookupField fs "answers".data with
        | some (.jarr l) =>
          match decodeAnswers l with
          | some answers => some { id := String.mk i, question := String.mk q, answers := answers }
          | none => none
        | _ => none
      | _ => none
    | _ => none
  | _ => none

/-- Reading of a JSON object field list as the entries of a graph record. -/
def decodeSteps : List (List Char × JVal) → Option TroubleshootingData
  | [] => some []
  | f :: fs =>
    match jsonToStep f.2, decodeSteps fs with
    | some st, some g => some ((String.mk f.1, st) :: g)
    | _, _ => none

/-- Reading of a JSON value as a whole graph record, following the declared
`TroubleshootingData` type of the source (line 15). -/
def jsonToGraph : JVal → Option TroubleshootingData
  | .jobj fs => decodeSteps fs
  | _ => none

/-- `toEditableText`: the editor serializes the current graph with
`JSON.stringify(currentData, null, 2)` (source line 179). -/
def toEditableText (g : TroubleshootingData) : String :=
  String.mk (printJ 0 (graphToJson g))

/-- `fromEditableText`: parsing of editor text back to a graph —
`JSON.parse` (source line 158) followed by the structural reading as
`TroubleshootingData`. -/
def fromEditableText (s : String) : Option TroubleshootingData :=
  (parseJson s).bind jsonToGraph

/-- Toast flavor (`Toast.Style.Success` / `Toast.Style.Failure`). -/
inductive ToastStyle where
  | success : ToastStyle
  | failure : ToastStyle
deriving DecidableEq

/-- One user-visible notification, as passed to `showToast`. -/
structure ToastMsg where
  style : ToastStyle
  title : String
  message : String
deriving DecidableEq

/-- Warning shown by `loadData` when stored text does not parse (line 87). -/
def loadWarnToast : ToastMsg :=
  { style := .failure, title := "Could not load custom flow", message := "Using default flow." }

/-- Success toast shown by `handleSave` after the write (line 100). -/
def saveSuccessToast : ToastMsg :=
  { style := .success, title := "Flow Saved!", message := "Your changes have been saved." }

/-- Failure toast shown by `handleSubmit` on invalid JSON (line 163). -/
def invalidJsonToast : ToastMsg :=
  { style := .failure, title := "Invalid JSON", message := "Please check your syntax." }

/-- The command component state: the in-memory data (`troubleshootingData`
React state — a JSON value at runtime, since `JSON.parse` output is cast
unchecked), the persistence slot `"troubleshootingData"` of
`LocalStorage`, the notifications shown so far, and the `activeTab`
dropdown value. -/
structure AppState where
  data : JVal
  storage : Option String
  toasts : List ToastMsg
  activeTab : String

/-- `loadData` (source lines 76-92): read the slot; if the stored value is
truthy, `JSON.parse` it, falling back to the default dataset with one
failure toast when parsing throws; if the stored value is absent (or
falsy), use the default dataset silently.  Returns the resulting in-memory
data and the notifications emitted. -/
def loadData (stored : Option String) : JVal × List ToastMsg :=
  if jsTruthy stored then
    match parseJson (stored.getD "") with
    | some v => (v, [])
    | none => (graphToJson initialTroubleshootingData, [loadWarnToast])
  else (graphToJson initialTroubleshootingData, [])

/-- `handleSave` (source lines 97-102): set the in-memory state to
`newData`, then `await` the durable write of `JSON.stringify(newData)`.
`writeOk` is the outcome of the write.  On success the success toast is
shown and the view switches back to the flow tab; on failure the `await`
throws, so the remaining statements are skipped — and there is no catch,
so no failure toast is shown. -/
def handleSave (s : AppState) (newData : JVal) (writeOk : Bool) : AppState :=
  let s1 := { s with data := newData }
  if writeOk then
    { s1 with
      storage := some (String.mk (printC newData)),
      toasts := s1.toasts ++ [saveSuccessToast],
      activeTab := "flow" }
  else s1

/-- The editor surface state on top of the command state: whether the
editor view is on the navigation stack, and the current content of the
`jsonData` text area. -/
structure UIState where
  app : AppState
  editorOpen : Bool
  editorText : String

/-- `handleSubmit` (source lines 156-165): `JSON.parse` the text area
content; on success hand the parsed value to `onSave` (= `handleSave`) and
`pop` the editor; on failure (the catch branch) show the invalid-JSON
failure toast — the editor stays open and the text area keeps its
content. -/
def handleSubmit (s : UIState) (writeOk : Bool) : UIState :=
  match parseJson s.editorText with
  | some v => { s with app := handleSave s.app v writeOk, editorOpen := false }
  | none => { s with app := { s.app with toasts := s.app.toasts ++ [invalidJsonToast] } }

/-- The presentation symbols that the extension can resolve an icon name
to: the symbols of the host `Icon` enumeration used by this extension,
plus `chevronRight`, the fallback at source line 210. -/
inductive IconSymbol where
  | play | gauge | xmarkCircle | document | questionMark | exclamationMark
  | computerChip | leaf | upload | terminal | wrench | check
  | chevronRight | checkCircle
deriving DecidableEq

/-- The host `Icon` enumeration restricted to the names this extension
stores: `Icon[name]` yields a symbol for a known name and `undefined`
(here `none`) otherwise. -/
def iconLookup (n : String) : Option IconSymbol :=
  if n = "Play" then some .play
  else if n = "Gauge" then some .gauge
  else if n = "XMarkCircle" then some .xmarkCircle
  else if n = "Document" then some .document
  else if n = "QuestionMark" then some .questionMark
  else if n = "ExclamationMark" then some .exclamationMark
  else if n = "ComputerChip" then some .computerChip
  else if n = "Leaf" then some .leaf
  else if n = "Upload" then some .upload
  else if n = "Terminal" then some .terminal
  else if n = "Wrench" then some .wrench
  else if n = "Check" then some .check
  else none

/-- Icon resolution at source line 210:
`answer.icon ? (Icon[answer.icon] || Icon.ChevronRight) : Icon.ChevronRight` —
a truthiness test on the stored name, then lookup with `||`-fallback to
`Icon.ChevronRight`. -/
def symbolFor (icon : Option String) : IconSymbol :=
  if jsTruthy icon then
    match iconLookup (icon.getD "") with
    | some sym => sym
    | none => .chevronRight
  else .chevronRight

/-- Extraction of the copyable resolution text at source line 228:
`answer.text.replace(/^Solution: /, "")` — the anchored pattern removes
one leading occurrence of the literal `"Solution: "` when present and
leaves the text unchanged otherwise. -/
def stripSolutionText (t : String) : String :=
  if "Solution: ".data.isPrefixOf t.data then String.mk (t.data.drop 10) else t

/-- The action attached to an answer: push a traversal frame for a step
id, or expose a copyable resolution string. -/
inductive AnswerAction where
  | navigate : String → AnswerAction
  | copySolution : String → AnswerAction
deriving DecidableEq

/-- The decision at source lines 213-230: `answer.nextId ?` selects the
`Action.Push` to the next step, else the `Action.CopyToClipboard` of the
stripped text.  A pure decision on the answer alone. -/
def selectAnswer (a : Answer) : AnswerAction :=
  if jsTruthy a.nextId then .navigate (a.nextId.getD "")
  else .copySolution (stripSolutionText a.text)

/-- One rendered list item of a step: title, resolved icon, and the
selection action of its action panel. -/
structure AnswerItem where
  title : String
  icon : IconSymbol
  action : AnswerAction
deriving DecidableEq

/-- What `TroubleshootingStep` renders: a loading list, the terminal
"End of Flow" empty view, or a question with its answer items. -/
inductive StepView where
  | loadingView : StepView
  | endOfFlow : StepView
  | stepView : String → List AnswerItem → StepView
deriving DecidableEq

/-- JavaScript record access `troubleshootingData[stepId]`. -/
def lookupStep (g : TroubleshootingData) (stepId : String) : Option TroubleshootingStepData :=
  match g.find? (fun p => p.1 == stepId) with
  | some p => some p.2
  | none => none

/-- `TroubleshootingStep` (source lines 189-237): while loading, a loading
view; when `stepId` has no entry, the terminal "End of Flow" view; else
the question with one item per answer, each carrying its icon and its
selection action. -/
def currentStep (g : TroubleshootingData) (stepId : String) (isLoading : Bool) : StepView :=
  if isLoading then .loadingView
  else
    match lookupStep g stepId with
    | none => .endOfFlow
    | some st =>
      .stepView st.question
        (st.answers.map (fun a => { title := a.text, icon := symbolFor a.icon, action := selectAnswer a }))

/-- A sample command state whose canonical graph is the built-in default,
with the same value persisted, used as a concrete pre-save state. -/
def priorState : AppState :=
  { data := graphToJson initialTroubleshootingData,
    storage := some (String.mk (printC (graphToJson initialTroubleshootingData))),
    toasts := [],
    activeTab := "editor" }

/-- A sample editor state whose text area holds unparseable text. -/
def sampleEditorState : UIState :=
  { app := { data := graphToJson initialTroubleshootingData,
             storage := none,
             toasts := [],
             activeTab := "editor" },
    editorOpen := true,
    editorText := "\x7boops" }

/-- Rebuilding a string from its character list is the identity. -/
theorem stringMk_data (s : String) : String.mk s.data = s := rfl

theorem skipWs_cons_ws {c : Char} (l : List Char) (h : isWsChar c = true) :
    skipWs (c :: l) = skipWs l := by
  simp [skipWs, h]

theorem skipWs_cons_nws {c : Char} (l : List Char) (h : isWsChar c = false) :
    skipWs (c :: l) = c :: l := by
  simp [skipWs, h]

theorem skipWs_spaces (n : Nat) (l : List Char) : skipWs (spaces n ++ l) = skipWs l := by
  induction n with
  | zero => rfl
  | succ k ih =>
    have hrw : spaces (k + 1) ++ l = ' ' :: (spaces k ++ l) := by
      simp [spaces, List.replicate_succ]
    rw [hrw, skipWs_cons_ws _ (by decide), ih]

/-- The printed form of a value begins with one of the four
value-starting characters. -/
theorem printJ_cons (g : Nat) (j : JVal) :
    ∃ c t, printJ g j = c :: t ∧ (c = 'n' ∨ c = '"' ∨ c = '[' ∨ c = '{') := by
  cases j with
  | jnull => exact ⟨'n', _, rfl, Or.inl rfl⟩
  | jstr s => exact ⟨'"', _, rfl, Or.inr (Or.inl rfl)⟩
  | jarr xs =>
    cases xs with
    | nil => exact ⟨'[', _, rfl, Or.inr (Or.inr (Or.inl rfl))⟩
    | cons x xs => exact ⟨'[', _, rfl, Or.inr (Or.inr (Or.inl rfl))⟩
  | jobj fs =>
    cases fs with
    | nil => exact ⟨'{', _, rfl, Or.inr (Or.inr (Or.inr rfl))⟩
    | cons f fs => exact ⟨'{', _, rfl, Or.inr (Or.inr (Or.inr rfl))⟩

theorem skipWs_printJ (g : Nat) (j : JVal) (r : List Char) :
    skipWs (printJ g j ++ r) = printJ g j ++ r := by
  obtain ⟨c, t, h, hc⟩ := printJ_cons g j
  rw [h, List.cons_append]
  refine skipWs_cons_nws _ ?_
  rcases hc with rfl | rfl | rfl | rfl <;> decide

theorem printJ_length_pos (g : Nat) (j : JVal) : 0 < (printJ g j).length := by
  obtain ⟨c, t, h, _⟩ := printJ_cons g j
  simp [h]

theorem printArrTail_length_pos (g : Nat) (xs : List JVal) : 0 < (printArrTail g xs).length := by
  cases xs <;> simp [printArrTail]

theorem printObjTail_length_pos (g : Nat) (fs : List (List Char × JVal)) :
    0 < (printObjTail g fs).length := by
  cases fs <;> simp [printObjTail]

theorem printFieldJ_length_pos (g : Nat) (f : List Char × JVal) :
    0 < (printFieldJ g f).length := by
  obtain ⟨k, v⟩ := f
  simp [printFieldJ, printStr]

theorem hexVal_hexDigitChar (n : Nat) (h : n < 16) : hexVal (hexDigitChar n) = some n := by
  interval_cases n <;> decide

/-- Decoding the escaped body of a string, up to the closing quote,
recovers the body and leaves the remainder untouched. -/
theorem parseStrBody_escStr (s : List Char) :
    ∀ rest, parseStrBody (escStr s ++ '"' :: rest) = some (s, rest) := by
  induction s with
  | nil => intro rest; simp [escStr, parseStrBody]
  | cons c s ih =>
    intro rest
    have hstep : escStr (c :: s) ++ '"' :: rest = escChar c ++ (escStr s ++ '"' :: rest) := by
      simp [escStr]
    rw [hstep]
    by_cases h1 : c = '"'
    · subst h1; simp [escChar, parseStrBody, parseEsc, unescChar, ih rest]
    by_cases h2 : c = '\\'
    · subst h2; simp [escChar, parseStrBody, parseEsc, unescChar, ih rest]
    by_cases h3 : c = '\n'
    · subst h3; simp [escChar, h1, h2, parseStrBody, parseEsc, unescChar, ih rest]
    by_cases h4 : c = '\r'
    · subst h4; simp [escChar, h1, h2, h3, parseStrBody, parseEsc, unescChar, ih rest]
    by_cases h5 : c = '\t'
    · subst h5; simp [escChar, h1, h2, h3, h4, parseStrBody, parseEsc, unescChar, ih rest]
    by_cases h6 : c = Char.ofNat 8
    · subst h6
      simp [escChar, h1, h2, h3, h4, h5, parseStrBody, parseEsc, unescChar, ih rest]
    by_cases h7 : c = Char.ofNat 12
    · subst h7
      simp [escChar, h1, h2, h3, h4, h5, h6, parseStrBody, parseEsc, unescChar, ih rest]
    by_cases h8 : c.toNat < 32
    · have hesc : escChar c =
          ['\\', 'u', '0', '0', hexDigitChar (c.toNat / 16), hexDigitChar (c.toNat % 16)] := by
        simp [escChar, h1, h2, h3, h4, h5, h6, h7, h8]
      have hdiv : c.toNat / 16 < 16 := by omega
      have hmod : c.toNat % 16 < 16 := by omega
      rw [hesc]
      have hval : c.toNat / 16 * 16 + c.toNat % 16 = c.toNat := by omega
      simp [parseStrBody, parseEsc, parseHexEsc,
        hexVal_hexDigitChar _ hdiv, hexVal_hexDigitChar _ hmod,
        (by decide : hexVal '0' = some 0), ih rest, hval, Char.ofNat_toNat]
    · have hesc : escChar c = [c] := by
        simp [escChar, h1, h2, h3, h4, h5, h6, h7, h8]
      rw [hesc]
      simp [parseStrBody, h1, h2, ih rest]

theorem skipWs_newline (l : List Char) : skipWs ('\n' :: l) = skipWs l :=
  skipWs_cons_ws l (by decide)

theorem skipWs_space (l : List Char) : skipWs (' ' :: l) = skipWs l :=
  skipWs_cons_ws l (by decide)

theorem skipWs_idem (l : List Char) : skipWs (skipWs l) = skipWs l := by
  induction l with
  | nil => rfl
  | cons c cs ih =>
    by_cases h : isWsChar c
    · rw [skipWs_cons_ws _ h]; exact ih
    · rw [skipWs_cons_nws _ (by simpa using h), skipWs_cons_nws _ (by simpa using h)]

theorem parseVal_skipWs (fuel : Nat) (input : List Char) :
    parseVal fuel (skipWs input) = parseVal fuel input := by
  cases fuel with
  | zero => rfl
  | succ n => simp only [parseVal, skipWs_idem]

theorem parseFieldJ_skipWs (fuel : Nat) (input : List Char) :
    parseFieldJ fuel (skipWs input) = parseFieldJ fuel input := by
  cases fuel with
  | zero => rfl
  | succ n => simp only [parseFieldJ, skipWs_idem]

theorem skipWs_printFieldJ (g : Nat) (k : List Char) (v : JVal) (r : List Char) :
    skipWs (printFieldJ g (k, v) ++ r) =
      '"' :: (escStr k ++ '"' :: (':' :: ' ' :: (printJ (g + 2) v ++ r))) := by
  have hrw : printFieldJ g (k, v) ++ r =
      spaces (g + 2) ++ ('"' :: (escStr k ++ '"' :: (':' :: ' ' :: (printJ (g + 2) v ++ r)))) := by
    simp [printFieldJ, printStr]
  rw [hrw, skipWs_spaces, skipWs_cons_nws _ (by decide)]

theorem parse_complete (fuel : Nat) :
    (∀ g j rest, (printJ g j).length ≤ fuel → parseVal fuel (printJ g j ++ rest) = some (j, rest)) ∧
    (∀ g xs rest, (printArrTail g xs).length ≤ fuel →
      parseArrTail fuel (printArrTail g xs ++ rest) = some (xs, rest)) ∧
    (∀ g fs rest, (printObjTail g fs).length ≤ fuel →
      parseObjTail fuel (printObjTail g fs ++ rest) = some (fs, rest)) ∧
    (∀ g f rest, (printFieldJ g f).length ≤ fuel →
      parseFieldJ fuel (printFieldJ g f ++ rest) = some (f, rest)) := by
  induction fuel with
  | zero =>
    refine ⟨?_, ?_, ?_, ?_⟩
    · intro g j rest h; have := printJ_length_pos g j; omega
    · intro g xs rest h; have := printArrTail_length_pos g xs; omega
    · intro g fs rest h; have := printObjTail_length_pos g fs; omega
    · intro g f rest h; have := printFieldJ_length_pos g f; omega
  | succ n ih =>
    obtain ⟨ihP, ihQ, ihR, ihF⟩ := ih
    refine ⟨?_, ?_, ?_, ?_⟩
    · intro g j rest h
      cases j with
      | jnull =>
        have hin : printJ g JVal.jnull ++ rest = 'n' :: 'u' :: 'l' :: 'l' :: rest := by
          simp [printJ]
        rw [hin]
        simp only [parseVal]
        rw [skipWs_cons_nws _ (by decide)]
        simp
      | jstr s =>
        have hin : printJ g (JVal.jstr s) ++ rest = '"' :: (escStr s ++ '"' :: rest) := by
          simp [printJ, printStr]
        rw [hin]
        simp only [parseVal]
        rw [skipWs_cons_nws _ (by decide)]
        simp [parseStrBody_escStr]
      | jarr xs =>
        cases xs with
        | nil =>
          have hin : printJ g (JVal.jarr []) ++ rest = '[' :: ']' :: rest := by
            simp [printJ]
          rw [hin]
          simp only [parseVal]
          rw [skipWs_cons_nws _ (by decide)]
          simp [skipWs_cons_nws _ (by decide : isWsChar ']' = false)]
        | cons x xs =>
          have hq := printArrTail_length_pos g xs
          have hp := printJ_length_pos (g + 2) x
          simp [printJ, spaces] at h
          have hlen1 : (printJ (g + 2) x).length ≤ n := by omega
          have hlen2 : (printArrTail g xs).length ≤ n := by omega
          have hin : printJ g (JVal.jarr (x :: xs)) ++ rest =
              '[' :: '\n' :: (spaces (g + 2) ++ (printJ (g + 2) x ++ (printArrTail g xs ++ rest))) := by
            simp [printJ]
          rw [hin]
          simp only [parseVal]
          rw [skipWs_cons_nws _ (by decide)]
          simp only [skipWs_newline, skipWs_spaces, skipWs_printJ]
          obtain ⟨c0, t0, hc0, hcases⟩ := printJ_cons (g + 2) x
          have hne : ((printJ (g + 2) x ++ (printArrTail g xs ++ rest)).head? = some ']') = False := by
            rw [hc0]
            rcases hcases with rfl | rfl | rfl | rfl <;> simp
          simp only [hne, if_false]
          simp only [ihP (g + 2) x (printArrTail g xs ++ rest) hlen1]
          simp only [ihQ g xs rest hlen2]
          simp
      | jobj fs =>
        cases fs with
        | nil =>
          have hin : printJ g (JVal.jobj []) ++ rest = '{' :: '}' :: rest := by
            simp [printJ]
          rw [hin]
          simp only [parseVal]
          rw [skipWs_cons_nws _ (by decide)]
          simp [skipWs_cons_nws _ (by decide : isWsChar '}' = false)]
        | cons f fs =>
          obtain ⟨k, v⟩ := f
          have hr := printObjTail_length_pos g fs
          have hv := printJ_length_pos (g + 2) v
          simp [printJ, printFieldJ, printStr, spaces] at h
          have hlenF : (printFieldJ g (k, v)).length ≤ n := by
            simp [printFieldJ, printStr, spaces]; omega
          have hlenR : (printObjTail g fs).length ≤ n := by omega
          have hin : printJ g (JVal.jobj ((k, v) :: fs)) ++ rest =
              '{' :: '\n' :: (printFieldJ g (k, v) ++ (printObjTail g fs ++ rest)) := by
            simp [printJ]
          rw [hin]
          simp only [parseVal]
          rw [skipWs_cons_nws _ (by decide)]
          simp only [skipWs_newline]
          have hne : ((skipWs (printFieldJ g (k, v) ++ (printObjTail g fs ++ rest))).head? =
              some '}') = False := by
            rw [skipWs_printFieldJ]; simp
          simp only [hne, if_false]
          rw [parseFieldJ_skipWs]
          simp only [ihF g (k, v) (printObjTail g fs ++ rest) hlenF]
          simp only [ihR g fs rest hlenR]
          simp
    · intro g xs rest h
      cases xs with
      | nil =>
        have hin : printArrTail g [] ++ rest = '\n' :: (spaces g ++ (']' :: rest)) := by
          simp [printArrTail]
        rw [hin]
        simp only [parseArrTail]
        rw [skipWs_newline, skipWs_spaces, skipWs_cons_nws _ (by decide)]
        simp
      | cons y ys =>
        have hq := printArrTail_length_pos g ys
        have hp := printJ_length_pos (g + 2) y
        simp [printArrTail, spaces] at h
        have hlen1 : (printJ (g + 2) y).length ≤ n := by omega
        have hlen2 : (printArrTail g ys).length ≤ n := by omega
        have hin : printArrTail g (y :: ys) ++ rest =
            ',' :: '\n' :: (spaces (g + 2) ++ (printJ (g + 2) y ++ (printArrTail g ys ++ rest))) := by
          simp [printArrTail]
        rw [hin]
        simp only [parseArrTail]
        rw [skipWs_cons_nws _ (by decide)]
        have hv1 : parseVal n ('\n' :: (spaces (g + 2) ++ (printJ (g + 2) y ++ (printArrTail g ys ++ rest)))) =
            some (y, printArrTail g ys ++ rest) := by
          rw [← parseVal_skipWs, skipWs_newline, skipWs_spaces, skipWs_printJ,
            ihP (g + 2) y (printArrTail g ys ++ rest) hlen1]
        simp only [hv1]
        simp only [ihQ g ys rest hlen2]
        simp
    · intro g fs rest h
      cases fs with
      | nil =>
        have hin : printObjTail g [] ++ rest = '\n' :: (spaces g ++ ('}' :: rest)) := by
          simp [printObjTail]
        rw [hin]
        simp only [parseObjTail]
        rw [skipWs_newline, skipWs_spaces, skipWs_cons_nws _ (by decide)]
        simp
      | cons f fs =>
        obtain ⟨k, v⟩ := f
        have hr := printObjTail_length_pos g fs
        have hv := printJ_length_pos (g + 2) v
        simp [printObjTail, printFieldJ, printStr, spaces] at h
        have hlenF : (printFieldJ g (k, v)).length ≤ n := by
          simp [printFieldJ, printStr, spaces]; omega
        have hlenR : (printObjTail g fs).length ≤ n := by omega
        have hin : printObjTail g ((k, v) :: fs) ++ rest =
            ',' :: '\n' :: (printFieldJ g (k, v) ++ (printObjTail g fs ++ rest)) := by
          simp [printObjTail]
        rw [hin]
        simp only [parseObjTail]
        rw [skipWs_cons_nws _ (by decide)]
        have hf1 : parseFieldJ n ('\n' :: (printFieldJ g (k, v) ++ (printObjTail g fs ++ rest))) =
            some ((k, v), printObjTail g fs ++ rest) := by
          rw [← parseFieldJ_skipWs, skipWs_newline, parseFieldJ_skipWs,
            ihF g (k, v) (printObjTail g fs ++ rest) hlenF]
        simp only [hf1]
        simp only [ihR g fs rest hlenR]
        simp
    · intro g f rest h
      obtain ⟨k, v⟩ := f
      have hv := printJ_length_pos (g + 2) v
      simp [printFieldJ, printStr, spaces] at h
      have hlenv : (printJ (g + 2) v).length ≤ n := by omega
      simp only [parseFieldJ]
      rw [skipWs_printFieldJ]
      simp only [parseStrBody_escStr]
      rw [skipWs_cons_nws _ (by decide)]
      have hval : parseVal n (' ' :: (printJ (g + 2) v ++ rest)) = some (v, rest) := by
        rw [← parseVal_skipWs, skipWs_space, skipWs_printJ, ihP (g + 2) v rest hlenv]
      simp only [hval]
      simp

/-- Parsing the pretty-printed form of any JSON value recovers the value. -/
theorem parseJson_printJ (j : JVal) : parseJson (String.mk (printJ 0 j)) = some j := by
  have h := (parse_complete ((printJ 0 j).length + 1)).1 0 j [] (by omega)
  rw [List.append_nil] at h
  simp [parseJson, h, skipWs]

/-- Decoding the encoding of an answer is the identity. -/
theorem jsonToAnswer_answerToJson (a : Answer) : jsonToAnswer (answerToJson a) = some a := by
  obtain ⟨t, n, i⟩ := a
  cases n <;> cases i <;> simp [answerToJson, jsonToAnswer, lookupField, stringMk_data]

/-- Decoding the encoding of an answer list is the identity. -/
theorem decodeAnswers_map (l : List Answer) :
    decodeAnswers (l.map answerToJson) = some l := by
  induction l with
  | nil => rfl
  | cons a l ih => simp [decodeAnswers, jsonToAnswer_answerToJson, ih]

/-- Decoding the encoding of a step is the identity. -/
theorem jsonToStep_stepToJson (st : TroubleshootingStepData) :
    jsonToStep (stepToJson st) = some st := by
  obtain ⟨i, q, answers⟩ := st
  simp [stepToJson, jsonToStep, lookupField, stringMk_data, decodeAnswers_map]

/-- Decoding the encoding of a whole graph is the identity. -/
theorem jsonToGraph_graphToJson (g : TroubleshootingData) :
    jsonToGraph (graphToJson g) = some g := by
  induction g with
  | nil => rfl
  | cons p g ih =>
    obtain ⟨k, st⟩ := p
    simp only [graphToJson, jsonToGraph, List.map_cons] at ih ⊢
    simp [decodeSteps, jsonToStep_stepToJson, stringMk_data, ih]

/-- A nonempty string is truthy. -/
theorem jsTruthy_some_ne (s : String) (h : s ≠ "") : jsTruthy (some s) = true := by
  cases s with
  | mk d =>
    cases d with
    | nil => exact absurd rfl h
    | cons c cs => rfl

/-- C1, counterexample: the claim says the in-memory canonical graph is
updated only after the durable write succeeds, the prior graph stays
authoritative on failure, and the caller is informed.  But `handleSave`
sets the in-memory state to the candidate before awaiting the write, so
after a failed write the in-memory data is already the candidate (not the
prior default graph) and no notification at all is shown. -/
theorem c1_counterexample :
    (handleSave priorState (JVal.jobj []) false).data = JVal.jobj [] ∧
    (handleSave priorState (JVal.jobj []) false).data ≠ priorState.data ∧
    (handleSave priorState (JVal.jobj []) false).toasts = priorState.toasts := by
  refine ⟨rfl, ?_, rfl⟩
  intro hcontra
  simp [handleSave, priorState, graphToJson, initialTroubleshootingData] at hcontra

/-- C1, amended: `handleSave` sets the in-memory data to the candidate
before the durable write.  On write failure the persistence slot, the
notifications and the active tab are untouched (so the caller is not
informed), and a subsequent load reads the slot as it was before the
failed save; on success the slot holds the compact serialization of the
candidate and one success toast is shown. -/
theorem c1_save_semantics (s : AppState) (cand : JVal) :
    (handleSave s cand false).data = cand ∧
    (handleSave s cand false).storage = s.storage ∧
    (handleSave s cand false).toasts = s.toasts ∧
    (handleSave s cand false).activeTab = s.activeTab ∧
    loadData (handleSave s cand false).storage = loadData s.storage ∧
    (handleSave s cand true).data = cand ∧
    (handleSave s cand true).storage = some (String.mk (printC cand)) ∧
    (handleSave s cand true).toasts = s.toasts ++ [saveSuccessToast] := by
  refine ⟨rfl, rfl, rfl, rfl, rfl, rfl, rfl, rfl⟩

/-- C2, counterexample: a slot holding the empty string is present and its
text fails JSON parsing, yet `loadData` emits no warning notification at
all (the truthiness test `if (storedData)` treats the empty string as
absent), instead of the exactly one warning the claim requires. -/
theorem c2_counterexample :
    parseJson "" = none ∧
    (loadData (some "")).2 = [] ∧
    (loadData (some "")).1 = graphToJson initialTroubleshootingData := by
  refine ⟨rfl, rfl, rfl⟩

/-- C2, amended: if the slot is absent the default graph is returned
silently; if the slot is present with nonempty text that fails parsing,
the default graph is returned with exactly one warning notification; but a
present empty-string slot is treated like an absent one: default graph, no
warning. -/
theorem c2_load_fallback :
    loadData none = (graphToJson initialTroubleshootingData, []) ∧
    loadData (some "") = (graphToJson initialTroubleshootingData, []) ∧
    (∀ s : String, s ≠ "" → parseJson s = none →
      loadData (some s) = (graphToJson initialTroubleshootingData, [loadWarnToast])) := by
  refine ⟨rfl, rfl, ?_⟩
  intro s hne hparse
  simp [loadData, jsTruthy_some_ne s hne, hparse]

/-- C2, witness for the amended claim at an unparseable one-brace text. -/
theorem c2_witness :
    ("\x7b" ≠ "" ∧ parseJson "\x7b" = none) ∧
    loadData (some "\x7b") = (graphToJson initialTroubleshootingData, [loadWarnToast]) :=
  ⟨⟨by decide, by rfl⟩, c2_load_fallback.2.2 "\x7b" (by decide) (by rfl)⟩

/-- C3: for every graph representable as a JavaScript record (keys
unique), parsing the editor serialization with `fromEditableText` after
`toEditableText` reproduces the graph exactly: same keys in order, and for
each step the same question and the same answers in the same order. -/
theorem c3_editor_round_trip (g : TroubleshootingData) (_hkeys : (g.map Prod.fst).Nodup) :
    fromEditableText (toEditableText g) = some g := by
  unfold fromEditableText toEditableText
  rw [parseJson_printJ]
  simpa using jsonToGraph_graphToJson g

/-- C3, witness at the built-in default graph. -/
theorem c3_witness :
    (initialTroubleshootingData.map Prod.fst).Nodup ∧
    fromEditableText (toEditableText initialTroubleshootingData) =
      some initialTroubleshootingData :=
  ⟨by decide, c3_editor_round_trip initialTroubleshootingData (by decide)⟩

/-- C4: for every graph and step id with no entry (including dangling
`nextId` targets), the rendered step is the terminal end-of-flow view; the
lookup never fails. -/
theorem c4_missing_step (g : TroubleshootingData) (stepId : String)
    (h : lookupStep g stepId = none) :
    currentStep g stepId false = StepView.endOfFlow := by
  simp [currentStep, h]

/-- C4, witness at the dangling id `"does-not-exist"` in the default graph. -/
theorem c4_witness :
    lookupStep initialTroubleshootingData "does-not-exist" = none ∧
    currentStep initialTroubleshootingData "does-not-exist" false = StepView.endOfFlow :=
  ⟨by decide, c4_missing_step initialTroubleshootingData "does-not-exist" (by decide)⟩

/-- C5, counterexample: an answer whose `nextId` is the empty string has a
present `nextId`, yet `selectAnswer` yields the copy action, not the
navigate action the claim requires for every present `nextId` — the source
tests truthiness, not presence. -/
theorem c5_counterexample :
    (Answer.mk "try this" (some "") none).nextId.isSome = true ∧
    selectAnswer (Answer.mk "try this" (some "") none) =
      AnswerAction.copySolution "try this" := by
  refine ⟨rfl, rfl⟩

/-- C5, amended: `selectAnswer` is a pure decision on the answer alone; if
`nextId` is present and nonempty the action is navigation to that id, and
if `nextId` is absent or the empty string the action exposes the stripped
resolution text for copy (the flow does not advance). -/
theorem c5_select_answer (a : Answer) :
    (∀ nid : String, a.nextId = some nid → nid ≠ "" →
      selectAnswer a = AnswerAction.navigate nid) ∧
    ((a.nextId = none ∨ a.nextId = some "") →
      selectAnswer a = AnswerAction.copySolution (stripSolutionText a.text)) := by
  constructor
  · intro nid hn hne
    simp [selectAnswer, hn, jsTruthy_some_ne nid hne]
  · rintro (hn | hn) <;> simp [selectAnswer, hn, jsTruthy]

/-- C5, witness: a nonempty `nextId` navigates; an absent one copies. -/
theorem c5_witness :
    ((Answer.mk "go" (some "next") none).nextId = some "next" ∧ "next" ≠ "" ∧
      selectAnswer (Answer.mk "go" (some "next") none) = AnswerAction.navigate "next") ∧
    ((Answer.mk "done" none none).nextId = none ∧
      selectAnswer (Answer.mk "done" none none) =
        AnswerAction.copySolution (stripSolutionText "done")) :=
  ⟨⟨rfl, by decide, (c5_select_answer (Answer.mk "go" (some "next") none)).1 "next" rfl (by decide)⟩,
   ⟨rfl, (c5_select_answer (Answer.mk "done" none none)).2 (Or.inl rfl)⟩⟩

/-- C6: when the submitted editor text fails to parse, the submission is
discarded entirely: the canonical graph, the persistence slot, the open
editor and its text are all unchanged, and exactly one failure
notification is appended. -/
theorem c6_submit_parse_failure (s : UIState) (w : Bool)
    (h : parseJson s.editorText = none) :
    (handleSubmit s w).app.data = s.app.data ∧
    (handleSubmit s w).app.storage = s.app.storage ∧
    (handleSubmit s w).editorOpen = s.editorOpen ∧
    (handleSubmit s w).editorText = s.editorText ∧
    (handleSubmit s w).app.toasts = s.app.toasts ++ [invalidJsonToast] ∧
    (handleSubmit s w).app.activeTab = s.app.activeTab := by
  simp [handleSubmit, h]

/-- C6, witness at a concrete editor state holding unparseable brace text. -/
theorem c6_witness :
    parseJson sampleEditorState.editorText = none ∧
    (handleSubmit sampleEditorState false).app.data = sampleEditorState.app.data ∧
    (handleSubmit sampleEditorState false).editorOpen = sampleEditorState.editorOpen ∧
    (handleSubmit sampleEditorState false).editorText = sampleEditorState.editorText ∧
    (handleSubmit sampleEditorState false).app.toasts =
      sampleEditorState.app.toasts ++ [invalidJsonToast] :=
  ⟨by rfl,
   (c6_submit_parse_failure sampleEditorState false (by rfl)).1,
   (c6_submit_parse_failure sampleEditorState false (by rfl)).2.2.1,
   (c6_submit_parse_failure sampleEditorState false (by rfl)).2.2.2.1,
   (c6_submit_parse_failure sampleEditorState false (by rfl)).2.2.2.2.1⟩

/-- C7: the copyable resolution equals the text with one leading
`"Solution: "` removed when the text starts with that prefix, and equals
the text verbatim otherwise — never stripped from the middle, at most one
leading occurrence removed. -/
theorem c7_strip_solution (s t : String) :
    (s = "Solution: " ++ t → stripSolutionText s = t) ∧
    (¬ "Solution: ".data.isPrefixOf s.data → stripSolutionText s = s) := by
  constructor
  · intro hs
    subst hs
    have hdata : ("Solution: " ++ t).data = "Solution: ".data ++ t.data :=
      String.data_append "Solution: " t
    have hpre : "Solution: ".data.isPrefixOf ("Solution: " ++ t).data = true := by
      rw [hdata, List.isPrefixOf_iff_prefix]
      exact List.prefix_append _ _
    have hlen : ("Solution: ".data).length = 10 := by decide
    rw [stripSolutionText, if_pos hpre, hdata, ← hlen, List.drop_left, stringMk_data]
  · intro h
    simp [stripSolutionText, h]

/-- C7, witness: one leading prefix is stripped (and only one), and text
without the prefix is copied verbatim. -/
theorem c7_witness :
    ("Solution: restart it" = "Solution: " ++ "restart it" ∧
      stripSolutionText "Solution: restart it" = "restart it") ∧
    (stripSolutionText "Solution: Solution: x" = "Solution: x") ∧
    (¬ "Solution: ".data.isPrefixOf "all good".data ∧
      stripSolutionText "all good" = "all good") :=
  ⟨⟨by decide, (c7_strip_solution "Solution: restart it" "restart it").1 (by decide)⟩,
   (c7_strip_solution "Solution: Solution: x" "Solution: x").1 (by decide),
   ⟨by decide, (c7_strip_solution "all good" "anything").2 (by decide)⟩⟩

/-- C8: in the built-in default graph, the step `"log-errors"` renders
with exactly one answer, and that answer's selection action exposes the
copyable text with the `"Solution: "` prefix stripped. -/
theorem c8_terminal_detection :
    currentStep initialTroubleshootingData "log-errors" false =
      StepView.stepView "Common errors include 'Permission Denied' or 'Port in Use'."
        [{ title := "Solution: Check file permissions or kill the process on that port.",
           icon := IconSymbol.wrench,
           action := AnswerAction.copySolution
             "Check file permissions or kill the process on that port." }] := by
  rfl

/-- C9: the icon field never affects traversal — answers differing only in
icon get the same action — and icon resolution is a total function
returning the default `chevronRight` symbol when the name is absent or
unrecognized, never an error. -/
theorem c9_icon_cosmetic :
    (∀ (a : Answer) (i : Option String),
      selectAnswer { a with icon := i } = selectAnswer a) ∧
    symbolFor none = IconSymbol.chevronRight ∧
    (∀ n : String, iconLookup n = none → symbolFor (some n) = IconSymbol.chevronRight) := by
  refine ⟨fun a i => rfl, rfl, ?_⟩
  intro n h
  by_cases hn : n = ""
  · subst hn; rfl
  · simp [symbolFor, jsTruthy_some_ne n hn, h]

/-- C9, witness at the unrecognized icon name `"NoSuchIcon"`. -/
theorem c9_witness :
    iconLookup "NoSuchIcon" = none ∧
    symbolFor (some "NoSuchIcon") = IconSymbol.chevronRight :=
  ⟨by decide, c9_icon_cosmetic.2.2 "NoSuchIcon" (by decide)⟩

/-- C10: an answer whose `nextId` is the empty string (present but falsy)
gets the copy action with the stripped text, never a navigation action:
the source decides on truthiness of `nextId`, not on presence. -/
theorem c10_empty_next_id (a : Answer) (h : a.nextId = some "") :
    selectAnswer a = AnswerAction.copySolution (stripSolutionText a.text) ∧
    ∀ target : String, selectAnswer a ≠ AnswerAction.navigate target := by
  have ht : jsTruthy a.nextId = false := by rw [h]; rfl
  constructor
  · simp [selectAnswer, ht]
  · intro target hc
    simp [selectAnswer, ht] at hc

/-- C10, witness at a concrete answer with empty-string `nextId`. -/
theorem c10_witness :
    (Answer.mk "fix it" (some "") none).nextId = some "" ∧
    selectAnswer (Answer.mk "fix it" (some "") none) =
      AnswerAction.copySolution (stripSolutionText "fix it") :=
  ⟨rfl, (c10_empty_next_id (Answer.mk "fix it" (some "") none) rfl).1⟩
